import Mathlib

/-!
Verification of `build_modrepo.py` (modrepo-builder-action).

This file shallowly embeds the script's data model and operations:

* `parse_version` and its `_parse_part` helper (source lines 132-171),
  together with the ordering Python's tuple/list comparison induces on the
  parsed keys;
* `ModMetadata` with `from_about_xml` / `read_data` (source lines 12-97)
  over a small model of `xml.etree` elements;
* the orchestration loop of `main` (source lines 220-317): asset filtering,
  archive download, descriptor extraction, digest recording and the
  emitted `ModRepo` document, with network fetches made explicit through an
  environment so that the fetch trace and every failure path are visible.

Strings are modelled at the level the script manipulates them: as their
lists of characters.  Python's `str.casefold`/`str.lower` are modelled by
ASCII lowercasing, `str.strip` by stripping the ASCII whitespace
characters, and `str.isdigit` / the regex class `\d` by the ASCII digits;
these coincide with Python on all inputs appearing below.
-/

/-- ASCII whitespace stripped by `str.strip()` (source line 133). -/
def pyIsSpace (c : Char) : Bool :=
  c = ' ' || c = '\t' || c = '\n' || c = '\r' || c = '\x0b' || c = '\x0c'

/-- Python `str.strip()` on a character list: drop whitespace at both ends. -/
def pyStripChars (l : List Char) : List Char :=
  ((l.dropWhile pyIsSpace).reverse.dropWhile pyIsSpace).reverse

/-- Python `str.strip()` on a string. -/
def pyStrip (s : String) : String :=
  String.mk (pyStripChars s.data)

/-- Python `str.lower()` (ASCII model). -/
def pyLower (s : String) : String :=
  String.mk (s.data.map Char.toLower)

/-- Python `str.endswith(suf)`. -/
def pyEndsWith (s suf : String) : Bool :=
  suf.data.isSuffixOf s.data

/-- Python `x or y` for strings: `y` when `x` is empty, else `x`. -/
def pyOrS (x y : String) : String :=
  if x = "" then y else x

/-- Python `opt or y` where `opt` is `dict.get`-style (`None` falsy). -/
def pyOrO (x : Option String) (y : String) : String :=
  match x with
  | none => y
  | some s => if s = "" then y else s

/-- Python `str.split(sep)` for a one-character separator: `"".split(".")`
is `[""]`, and doubled separators yield empty fields. -/
def splitOnChar (c : Char) (l : List Char) : List (List Char) :=
  match l with
  | [] => [[]]
  | x :: xs =>
    match splitOnChar c xs with
    | [] => [[]]
    | h :: t => if x = c then [] :: h :: t else (x :: h) :: t

/-- Value of a decimal digit run, as Python `int(num_s)` computes it. -/
def digitsToNat (l : List Char) : Nat :=
  l.foldl (fun n c => n * 10 + (c.toNat - 48)) 0

/-- The `_cmp_key_str` helper (source lines 140-142): Python `casefold`,
modelled as ASCII lowercasing. -/
def cmp_key_str (l : List Char) : List Char :=
  l.map Char.toLower

/-- One parsed part: the `(prefix, number, suffix)` 3-tuple built by
`_parse_part` (source lines 144-164). -/
abbrev VPart := List Char × Nat × List Char

/-- One parsed version key: sections (split on `.`), each a list of parts
(split on `-`), as returned by `parse_version` (source lines 166-171). -/
abbrev VersionKey := List (List VPart)

/-- Effective text an anchored Python regex `^...$` sees on `l`: in Python
`re`, `.` does not match a newline while `$` also matches just before a
final newline, so both patterns of `_parse_part` match exactly when the
part either contains no newline (`some l`) or only a final one
(`some l.dropLast`); otherwise they fail to match (`none`). -/
def reAnchoredView (l : List Char) : Option (List Char) :=
  if l.contains '\n' then
    if l.getLast? = some '\n' && !(l.dropLast.contains '\n') then
      some l.dropLast
    else
      none
  else
    some l

/-- The `_parse_part` helper (source lines 144-164): a part starting with a
digit splits into leading digits plus case-folded remainder; any other part
splits into a case-folded head plus a maximal trailing digit run; when the
regex cannot match, the branch's fallback value is returned. -/
def parse_part (part : List Char) : VPart :=
  match part with
  | [] => ([], 0, [])
  | c :: _ =>
    if c.isDigit then
      match reAnchoredView part with
      | none => ([], 0, [])
      | some t =>
        ([], digitsToNat (t.takeWhile Char.isDigit),
          cmp_key_str (t.dropWhile Char.isDigit))
    else
      match reAnchoredView part with
      | none => (cmp_key_str part, 0, [])
      | some t =>
        (cmp_key_str (t.reverse.dropWhile Char.isDigit).reverse,
          digitsToNat (t.reverse.takeWhile Char.isDigit).reverse, [])

/-- Stripping of one leading `v`/`V` (source lines 137-138:
`if s[0] in "vV": s = s[1:]`). -/
def stripV (l : List Char) : List Char :=
  if l.head? = some 'v' ∨ l.head? = some 'V' then l.tail else l

/-- The `parse_version` function (source lines 132-171): strip whitespace,
map the empty string to the minimal key, strip one leading `v`/`V`, split
into sections on `.`, each section into parts on `-`, and parse each part. -/
def parse_version (s : String) : VersionKey :=
  let l := pyStripChars s.data
  if l = [] then
    [[([], 0, [])]]
  else
    (splitOnChar '.' (stripV l)).map fun sec => (splitOnChar '-' sec).map parse_part

/-- Lexicographic comparison of lists by a comparator, exactly as Python
compares two lists element by element with a shorter strict prefix sorting
first. -/
def lexCmp (c : α → α → Ordering) : List α → List α → Ordering
  | [], [] => .eq
  | [], _ :: _ => .lt
  | _ :: _, [] => .gt
  | a :: as, b :: bs =>
    match c a b with
    | .lt => .lt
    | .gt => .gt
    | .eq => lexCmp c as bs

/-- Lexicographic comparison of pairs, as Python compares tuples. -/
def pairCmp (ca : α → α → Ordering) (cb : β → β → Ordering)
    (x y : α × β) : Ordering :=
  match ca x.1 y.1 with
  | .lt => .lt
  | .gt => .gt
  | .eq => cb x.2 y.2

/-- Python `int` comparison. -/
def cmpNat (a b : Nat) : Ordering := compare a b

/-- Python character comparison: by code point. -/
def cmpChar (a b : Char) : Ordering := compare a.toNat b.toNat

/-- Python string comparison: code-point lexicographic. -/
def cmpCharList : List Char → List Char → Ordering := lexCmp cmpChar

/-- Comparison of two parsed parts: the `(prefix, number, suffix)` tuple
order used by Python on `_parse_part` results. -/
def cmpVPart : VPart → VPart → Ordering :=
  pairCmp cmpCharList (pairCmp cmpNat cmpCharList)

/-- Comparison of two sections (part lists). -/
def cmpSection : List VPart → List VPart → Ordering := lexCmp cmpVPart

/-- Comparison of two version keys, exactly the order Python's `<` and
`sort` use on `parse_version` results. -/
def cmpKey : VersionKey → VersionKey → Ordering := lexCmp cmpSection

/-- Strict `<` on version keys. -/
def keyLT (a b : VersionKey) : Prop := cmpKey a b = .lt

instance (a b : VersionKey) : Decidable (keyLT a b) := by
  unfold keyLT
  infer_instance

/-- Lawfulness of a comparator: `.eq` characterises equality, `.lt` is
transitive, and swapping the arguments swaps the outcome.  Together these
make the induced strict relation a strict total order. -/
structure CmpLaws (c : α → α → Ordering) : Prop where
  eq_iff : ∀ a b, c a b = .eq ↔ a = b
  lt_trans : ∀ a b d, c a b = .lt → c b d = .lt → c a d = .lt
  swap_eq : ∀ a b, (c a b).swap = c b a

/-- Minimal model of an `xml.etree.ElementTree.Element`: tag, attributes,
text, and the list of direct children in document order. -/
inductive XElem where
  | mk : String → List (String × String) → Option String → List XElem → XElem

def XElem.tag : XElem → String
  | .mk t _ _ _ => t

def XElem.attrib : XElem → List (String × String)
  | .mk _ a _ _ => a

def XElem.text : XElem → Option String
  | .mk _ _ tx _ => tx

def XElem.children : XElem → List XElem
  | .mk _ _ _ ch => ch

/-- Python `elem.attrib.get(k)`. -/
def getAttr (e : XElem) (k : String) : Option String :=
  (e.attrib.find? fun p => p.1 == k).map Prod.snd

/-- Python `elem.find(name)` for a plain tag: first direct child with that
tag. -/
def findChild (e : XElem) (name : String) : Option XElem :=
  e.children.find? fun c => c.tag == name

/-- Python `elem.findall(name)` for a plain tag: all direct children with
that tag, in document order. -/
def findAllChildren (e : XElem) (name : String) : List XElem :=
  e.children.filter fun c => c.tag == name

/-- Python `elem.findtext(name)`: `None` when no direct child matches;
otherwise the child's text, with `""` for a child that has no text. -/
def findtext (e : XElem) (name : String) : Option String :=
  match findChild e name with
  | none => none
  | some c => some (c.text.getD "")

/-- The `ModMetadata` record (source lines 12-22).  `version_parsed` is
maintained by the `version` property setter (source lines 69-72), so it
always equals `parse_version version`.  Fields the script assigns only
later (`url`, `digest`) default to the empty string. -/
structure ModMetadata where
  id : String
  version : String
  version_parsed : VersionKey
  name : String
  author : String
  url : String := ""
  digest : String := ""
  branch : String := ""
  tag : List String := []
  depends_on : List String := []
deriving DecidableEq

/-- The `read_data` method (source lines 74-90).  Two quirks are kept
exactly as in the source: the `Tags` container is tested for Python
truthiness (an `Element` is truthy iff it has children) but the `Tag`
leaves are then looked up among the children of the *root* element
(`elem.findall("Tag")`, source line 78), not of the container; and only
the *last* `Branch` text is kept, stripped (source lines 87-90). -/
def read_data (elem : XElem) (mm : ModMetadata) : ModMetadata :=
  let tagv : List String :=
    match findChild elem "Tags" with
    | none => []
    | some tags_el =>
      if tags_el.children.isEmpty then []
      else
        ((findAllChildren elem "Tag").map fun t => pyStrip (t.text.getD "")).filter
          fun t => t ≠ ""
  let depends := (findAllChildren elem "DependsOn").map fun d =>
    pyStrip (pyOrO (getAttr d "ModID") (pyOrO (getAttr d "WorkshopHandle") ""))
  let branches := (findAllChildren elem "Branch").map fun b => b.text.getD ""
  { mm with
    tag := tagv
    depends_on := depends.filter fun d => d ≠ ""
    branch := pyStrip (branches.getLastD "") }

/-- The `get_field` helper inside `from_about_xml` (source lines 37-41): a
missing element raises `ValueError` naming the tag; a present element
contributes its stripped text (`findtext` already maps absent text to
`""`). -/
def get_field (elem : XElem) (name : String) : Except String String :=
  match findtext elem name with
  | none => .error ("Missing  required <" ++ name ++ "> in About.xml")
  | some t => .ok (pyStrip t)

/-- The element branch of `ModMetadata.from_about_xml` (source lines
35-50): the four required fields in source order, then `read_data`; the
`version` setter computes `version_parsed`. -/
def from_about_elem (elem : XElem) : Except String ModMetadata :=
  match get_field elem "ModID" with
  | .error e => .error e
  | .ok i =>
    match get_field elem "Version" with
    | .error e => .error e
    | .ok ver =>
      match get_field elem "Name" with
      | .error e => .error e
      | .ok nm =>
        match get_field elem "Author" with
        | .error e => .error e
        | .ok au =>
          .ok (read_data elem
            { id := i, version := ver, version_parsed := parse_version ver,
              name := nm, author := au })

/-- Decoded text of a zip entry, modelled at the granularity the pipeline
inspects it: the script only asks whether the text is falsy
(`if not about_xml`) and what `ET.fromstring` yields on it (a
`ParseError`, or a root element). -/
inductive XmlText where
  | empty
  | malformed (err : String)
  | parsed (root : XElem)

/-- The string branch of `ModMetadata.from_about_xml` (source lines
29-35): `ET.fromstring` raises on malformed XML (and on the empty
string); the element branch runs on the parsed root. -/
def from_about_xml : XmlText → Except String ModMetadata
  | .empty => .error "ParseError: no element found"
  | .malformed err => .error err
  | .parsed root => from_about_elem root

/-- One release asset with the two fields `main` reads; a field the API
response lacks is the empty string (the script defaults it via
`.get(..., "")` and `or ""`). -/
structure Asset where
  name : String
  browser_download_url : String

/-- One release with the fields `main` reads. -/
structure Release where
  tag_name : String
  assets : List Asset

/-- A downloaded archive: its zip entry listing (path and decoded entry
text) plus, held abstractly, the digest bytes `hashlib.sha256` computes
for the file — the hash itself is an external library, only the hex
rendering of its result is embedded. -/
structure Archive where
  entries : List (String × XmlText)
  digestBytes : List Nat

/-- The transport collaborator: `requests.get(url)` either raises
(`.error`, also covering `raise_for_status` and bad-zip failures) or
yields the archive. -/
structure Env where
  fetch : String → Except String Archive

/-- The `read_about_xml_from_zip` function (source lines 117-129): among
entries whose path ends with `About/About.xml`, prefer the exact path,
else take the first candidate; `None` when there is no candidate.  Entry
lookup by name is modelled as first match (zip entry names are unique in
the archives considered). -/
def read_about_xml_from_zip (ar : Archive) : Option XmlText :=
  let candidates := ar.entries.filter fun e => pyEndsWith e.1 "About/About.xml"
  match candidates with
  | [] => none
  | c :: _ =>
    let nm := if candidates.any (fun e => e.1 == "About/About.xml")
      then "About/About.xml" else c.1
    (candidates.find? fun e => e.1 == nm).map Prod.snd

/-- One lowercase hex digit, as `bytes.hex()` renders one nibble: an
index into the table `"0123456789abcdef"` (the argument is always reduced
modulo 16 before lookup). -/
def hexChar (n : Nat) : Char :=
  "0123456789abcdef".data.getD n 'f'

/-- Result formatting of the `sha256` function (source lines 109-114):
`hashlib.sha256(...).hexdigest()` renders each digest byte as two
lowercase hex digits — no algorithm tag, no separators. -/
def hexdigest (digestBytes : List Nat) : String :=
  String.mk (digestBytes.foldr
    (fun b acc => hexChar (b / 16 % 16) :: hexChar (b % 16) :: acc) [])

/-- Processing of one asset inside `main`'s loop (source lines 263-293),
with the list of URLs for which a download was started recorded alongside
the outcome.  The loop has no exception handler, so any failure
(transport error, XML parse error, missing descriptor field) propagates
as `.error`; `.ok none` is `continue`; `.ok (some mm)` is the record that
gets appended, with `digest` (locally computed hash, line 290) and `url`
(line 291) attached. -/
def process_asset (env : Env) (a : Asset) :
    Except String (Option ModMetadata) × List String :=
  if ¬ pyEndsWith (pyLower a.name) ".zip" then (.ok none, [])
  else if a.browser_download_url = "" then (.ok none, [])
  else
    match env.fetch a.browser_download_url with
    | .error e => (.error e, [a.browser_download_url])
    | .ok ar =>
      match read_about_xml_from_zip ar with
      | none => (.ok none, [a.browser_download_url])
      | some .empty => (.ok none, [a.browser_download_url])
      | some t =>
        match from_about_xml t with
        | .error e => (.error e, [a.browser_download_url])
        | .ok mm =>
          (.ok (some { mm with
              digest := hexdigest ar.digestBytes,
              url := a.browser_download_url }),
            [a.browser_download_url])

/-- The inner asset loop (source lines 263-293): fold over the assets,
accumulating records and the download trace, aborting on the first
uncaught exception. -/
def process_assets (env : Env) :
    List Asset → List ModMetadata → Except String (List ModMetadata) × List String
  | [], acc => (.ok acc, [])
  | a :: rest, acc =>
    match process_asset env a with
    | (.error e, f) => (.error e, f)
    | (.ok none, f) =>
      let r2 := process_assets env rest acc
      (r2.1, f ++ r2.2)
    | (.ok (some mm), f) =>
      let r2 := process_assets env rest (acc ++ [mm])
      (r2.1, f ++ r2.2)

/-- `has_zip` (source line 243). -/
def has_zip (rel : Release) : Bool :=
  rel.assets.any fun a => pyEndsWith (pyLower a.name) ".zip"

/-- The release loop of `main` (source lines 239-293): a release without
a zip-named asset is skipped; otherwise the asset loop runs, threading
the accumulated `entries` list; an uncaught exception aborts the run. -/
def build_entries_t (env : Env) :
    List Release → List ModMetadata → Except String (List ModMetadata) × List String
  | [], acc => (.ok acc, [])
  | rel :: rest, acc =>
    if ¬ has_zip rel then build_entries_t env rest acc
    else
      match process_assets env rel.assets acc with
      | (.error e, f) => (.error e, f)
      | (.ok acc2, f) =>
        let r2 := build_entries_t env rest acc2
        (r2.1, f ++ r2.2)

/-- The entry list a `main` run accumulates (source lines 237-293). -/
def build_entries (env : Env) (rels : List Release) : Except String (List ModMetadata) :=
  (build_entries_t env rels []).1

/-- The URLs a `main` run downloads. -/
def build_fetches (env : Env) (rels : List Release) : List String :=
  (build_entries_t env rels []).2

/-- Fetch trace of a whole `main` run.  `main` also loads the previous
catalog into `old_releases` (source lines 225-229), but the only code
that would consult it — reusing records of unchanged releases — is
commented out (source lines 246-253), so the loop downloads the same URLs
whatever was previously persisted. -/
def main_fetches (old_releases : List ModMetadata) (env : Env) (rels : List Release) :
    List String :=
  build_fetches env rels

/-- Sort key of `entries.sort` (source line 298): the Python tuple
`(t.id, t.version_parsed, t.branch)` compared lexicographically. -/
def entry_cmp (a b : ModMetadata) : Ordering :=
  (cmpCharList a.id.data b.id.data).then
    ((cmpKey a.version_parsed b.version_parsed).then
      (cmpCharList a.branch.data b.branch.data))

/-- Stable insertion: `x` moves past exactly the elements strictly below
it, so ties keep their original relative order, as Python's stable
`list.sort` does. -/
def insert_sorted (x : ModMetadata) : List ModMetadata → List ModMetadata
  | [] => [x]
  | y :: ys => if entry_cmp x y = .gt then y :: insert_sorted x ys else x :: y :: ys

/-- `entries.sort(key=...)` (source line 298). -/
def sort_entries (l : List ModMetadata) : List ModMetadata :=
  l.foldr insert_sorted []

/-- One `ModVersion` element of the output document (source lines
300-310): six attributes in source order and exactly one `Branch` child
whose `Value` is `mm.branch or ""`. -/
def modVersionElem (mm : ModMetadata) : XElem :=
  .mk "ModVersion"
    [("ModID", mm.id), ("Version", mm.version), ("Name", mm.name),
     ("Author", mm.author), ("Url", mm.url), ("Digest", mm.digest)]
    none
    [.mk "Branch" [("Value", pyOrS mm.branch "")] none []]

/-- The emitted `ModRepo` document (source lines 296-316) as an element
tree; indentation and the XML declaration only affect the byte rendering
of this tree. -/
def modrepoElem (entries : List ModMetadata) : XElem :=
  .mk "ModRepo" [] none ((sort_entries entries).map modVersionElem)

/-- A descriptor with all four required fields and no optional elements. -/
def exGoodDoc : XElem :=
  .mk "ModMetadata" [] none
    [.mk "ModID" [] (some "mod.good") [],
     .mk "Version" [] (some "1.0") [],
     .mk "Name" [] (some "Good Mod") [],
     .mk "Author" [] (some "A") []]

/-- The record `from_about_elem` produces for `exGoodDoc`. -/
def goodBaseRecord : ModMetadata :=
  { id := "mod.good", version := "1.0", version_parsed := parse_version "1.0",
    name := "Good Mod", author := "A" }

/-- A descriptor declaring two `Branch` elements, `"a "` and `"b "`. -/
def exTwoBranchDoc : XElem :=
  .mk "ModMetadata" [] none
    [.mk "ModID" [] (some "mod.x") [],
     .mk "Version" [] (some "1.0") [],
     .mk "Name" [] (some "X") [],
     .mk "Author" [] (some "A") [],
     .mk "Branch" [] (some "a ") [],
     .mk "Branch" [] (some "b ") []]

/-- The record `from_about_elem` produces for `exTwoBranchDoc`. -/
def twoBranchRecord : ModMetadata :=
  { id := "mod.x", version := "1.0", version_parsed := parse_version "1.0",
    name := "X", author := "A", branch := "b" }

/-- A descriptor whose `Tags` container holds one `Tag` leaf with text
`Gameplay`. -/
def exTagsDoc : XElem :=
  .mk "ModMetadata" [] none
    [.mk "ModID" [] (some "mod.x") [],
     .mk "Version" [] (some "1.0") [],
     .mk "Name" [] (some "X") [],
     .mk "Author" [] (some "A") [],
     .mk "Tags" [] none [.mk "Tag" [] (some "Gameplay") []]]

/-- A descriptor whose `ModID` element is present but empty
(`<ModID></ModID>`), with the other three fields filled. -/
def exBlankModIDDoc : XElem :=
  .mk "ModMetadata" [] none
    [.mk "ModID" [] none [],
     .mk "Version" [] (some "1.0") [],
     .mk "Name" [] (some "X") [],
     .mk "Author" [] (some "A") []]

/-- A well-formed downloaded archive containing `exGoodDoc` at the
canonical path; its (abstract) SHA-256 digest bytes start `0xaa 0x00`. -/
def goodArchive : Archive :=
  { entries := [("About/About.xml", .parsed exGoodDoc)], digestBytes := [170, 0] }

/-- A transport serving `goodArchive` at one URL and failing with `boom`
at another. -/
def envEx : Env :=
  { fetch := fun url =>
      if url = "https://x/bad.zip" then .error "boom"
      else if url = "https://x/good.zip" then .ok goodArchive
      else .error "404" }

/-- An asset whose download fails. -/
def aBad : Asset := { name := "Bad-1.0.zip", browser_download_url := "https://x/bad.zip" }

/-- An asset whose download succeeds and parses. -/
def aGood : Asset := { name := "Good-1.0.zip", browser_download_url := "https://x/good.zip" }

/-- The record the pipeline produces for `aGood` under `envEx`. -/
def goodRecord : ModMetadata :=
  { id := "mod.good", version := "1.0", version_parsed := parse_version "1.0",
    name := "Good Mod", author := "A", url := "https://x/good.zip",
    digest := hexdigest [170, 0] }

/-- A downloaded archive whose descriptor text is not well-formed XML. -/
def malformedArchive : Archive :=
  { entries := [("About/About.xml", .malformed "ParseError: not well-formed")],
    digestBytes := [1] }

/-- A well-formed descriptor with none of the required fields. -/
def emptyDoc : XElem :=
  .mk "ModMetadata" [] none []

/-- A downloaded archive whose descriptor lacks the required fields. -/
def noFieldArchive : Archive :=
  { entries := [("About/About.xml", .parsed emptyDoc)], digestBytes := [2] }

/-- A transport serving a malformed-descriptor archive at one URL and a
field-less-descriptor archive at another, to exercise the non-transport
failure kinds. -/
def envC2 : Env :=
  { fetch := fun url =>
      if url = "https://x/malformed.zip" then .ok malformedArchive
      else if url = "https://x/nofield.zip" then .ok noFieldArchive
      else .error "404" }

/-- An asset whose archive holds a malformed descriptor. -/
def aMalformed : Asset :=
  { name := "Malformed-1.0.zip", browser_download_url := "https://x/malformed.zip" }

/-- An asset whose archive's descriptor lacks the required fields. -/
def aNoField : Asset :=
  { name := "NoField-1.0.zip", browser_download_url := "https://x/nofield.zip" }

theorem cmpNat_laws : CmpLaws cmpNat where
  eq_iff _ _ := Nat.compare_eq_eq
  lt_trans _ _ _ h1 h2 :=
    Nat.compare_eq_lt.2 (Nat.lt_trans (Nat.compare_eq_lt.1 h1) (Nat.compare_eq_lt.1 h2))
  swap_eq _ _ := Nat.compare_swap ..

theorem char_toNat_inj {a b : Char} (h : a.toNat = b.toNat) : a = b := by
  have h2 := congrArg Char.ofNat h
  rwa [Char.ofNat_toNat, Char.ofNat_toNat] at h2

theorem cmpChar_laws : CmpLaws cmpChar where
  eq_iff a b := by
    unfold cmpChar
    constructor
    · intro h
      exact char_toNat_inj (Nat.compare_eq_eq.1 h)
    · intro h
      subst h
      exact Nat.compare_eq_eq.2 rfl
  lt_trans a b d h1 h2 :=
    Nat.compare_eq_lt.2 (Nat.lt_trans (Nat.compare_eq_lt.1 h1) (Nat.compare_eq_lt.1 h2))
  swap_eq a b := Nat.compare_swap ..

theorem lexCmp_laws (c : α → α → Ordering) (hc : CmpLaws c) : CmpLaws (lexCmp c) where
  eq_iff a := by
    induction a with
    | nil =>
      intro b
      cases b <;> simp [lexCmp]
    | cons x xs ih =>
      intro b
      cases b with
      | nil => simp [lexCmp]
      | cons y ys =>
        simp only [lexCmp]
        cases hxy : c x y with
        | lt =>
          simp only [reduceCtorEq, false_iff]
          intro hcontra
          rw [List.cons.injEq] at hcontra
          rw [(hc.eq_iff x y).2 hcontra.1] at hxy
          exact absurd hxy (by simp)
        | gt =>
          simp only [reduceCtorEq, false_iff]
          intro hcontra
          rw [List.cons.injEq] at hcontra
          rw [(hc.eq_iff x y).2 hcontra.1] at hxy
          exact absurd hxy (by simp)
        | eq =>
          have hx := (hc.eq_iff x y).1 hxy
          subst hx
          simp [ih ys]
  lt_trans a := by
    induction a with
    | nil =>
      intro b d h1 h2
      cases b with
      | nil => exact absurd h1 (by simp [lexCmp])
      | cons y ys =>
        cases d with
        | nil => exact absurd h2 (by simp [lexCmp])
        | cons z zs => simp [lexCmp]
    | cons x xs ih =>
      intro b d h1 h2
      cases b with
      | nil => exact absurd h1 (by simp [lexCmp])
      | cons y ys =>
        cases d with
        | nil => exact absurd h2 (by simp [lexCmp])
        | cons z zs =>
          simp only [lexCmp] at h1 h2 ⊢
          cases hxy : c x y with
          | gt => rw [hxy] at h1; exact absurd h1 (by simp)
          | lt =>
            rw [hxy] at h1
            cases hyz : c y z with
            | gt => rw [hyz] at h2; exact absurd h2 (by simp)
            | lt => rw [hc.lt_trans x y z hxy hyz]
            | eq =>
              have hy := (hc.eq_iff y z).1 hyz
              subst hy
              rw [hxy]
          | eq =>
            rw [hxy] at h1
            have hx := (hc.eq_iff x y).1 hxy
            subst hx
            cases hyz : c x z with
            | gt => rw [hyz] at h2; exact absurd h2 (by simp)
            | lt => rfl
            | eq =>
              rw [hyz] at h2
              exact ih ys zs h1 h2
  swap_eq a := by
    induction a with
    | nil =>
      intro b
      cases b <;> simp [lexCmp, Ordering.swap]
    | cons x xs ih =>
      intro b
      cases b with
      | nil => simp [lexCmp, Ordering.swap]
      | cons y ys =>
        simp only [lexCmp]
        cases hxy : c x y with
        | lt =>
          have h2 := hc.swap_eq x y
          rw [hxy] at h2
          rw [← h2]
          simp [Ordering.swap]
        | gt =>
          have h2 := hc.swap_eq x y
          rw [hxy] at h2
          rw [← h2]
          simp [Ordering.swap]
        | eq =>
          have h2 := hc.swap_eq x y
          rw [hxy] at h2
          rw [← h2]
          exact ih ys

theorem pairCmp_laws (ca : α → α → Ordering) (cb : β → β → Ordering)
    (ha : CmpLaws ca) (hb : CmpLaws cb) : CmpLaws (pairCmp ca cb) where
  eq_iff x y := by
    obtain ⟨x1, x2⟩ := x
    obtain ⟨y1, y2⟩ := y
    simp only [pairCmp]
    cases hxy : ca x1 y1 with
    | lt =>
      simp only [reduceCtorEq, false_iff]
      intro hcontra
      rw [Prod.mk.injEq] at hcontra
      rw [(ha.eq_iff x1 y1).2 hcontra.1] at hxy
      exact absurd hxy (by simp)
    | gt =>
      simp only [reduceCtorEq, false_iff]
      intro hcontra
      rw [Prod.mk.injEq] at hcontra
      rw [(ha.eq_iff x1 y1).2 hcontra.1] at hxy
      exact absurd hxy (by simp)
    | eq =>
      have hx := (ha.eq_iff x1 y1).1 hxy
      subst hx
      simp [hb.eq_iff]
  lt_trans x y z h1 h2 := by
    obtain ⟨x1, x2⟩ := x
    obtain ⟨y1, y2⟩ := y
    obtain ⟨z1, z2⟩ := z
    simp only [pairCmp] at h1 h2 ⊢
    cases hxy : ca x1 y1 with
    | gt => rw [hxy] at h1; exact absurd h1 (by simp)
    | lt =>
      rw [hxy] at h1
      cases hyz : ca y1 z1 with
      | gt => rw [hyz] at h2; exact absurd h2 (by simp)
      | lt => rw [ha.lt_trans x1 y1 z1 hxy hyz]
      | eq =>
        have hy := (ha.eq_iff y1 z1).1 hyz
        subst hy
        rw [hxy]
    | eq =>
      rw [hxy] at h1
      have hx := (ha.eq_iff x1 y1).1 hxy
      subst hx
      cases hyz : ca x1 z1 with
      | gt => rw [hyz] at h2; exact absurd h2 (by simp)
      | lt => rfl
      | eq =>
        rw [hyz] at h2
        exact hb.lt_trans x2 y2 z2 h1 h2
  swap_eq x y := by
    obtain ⟨x1, x2⟩ := x
    obtain ⟨y1, y2⟩ := y
    simp only [pairCmp]
    cases hxy : ca x1 y1 with
    | lt =>
      have h2 := ha.swap_eq x1 y1
      rw [hxy] at h2
      rw [← h2]
      simp [Ordering.swap]
    | gt =>
      have h2 := ha.swap_eq x1 y1
      rw [hxy] at h2
      rw [← h2]
      simp [Ordering.swap]
    | eq =>
      have h2 := ha.swap_eq x1 y1
      rw [hxy] at h2
      rw [← h2]
      exact hb.swap_eq x2 y2

theorem cmpCharList_laws : CmpLaws cmpCharList :=
  lexCmp_laws cmpChar cmpChar_laws

theorem cmpVPart_laws : CmpLaws cmpVPart :=
  pairCmp_laws _ _ cmpCharList_laws (pairCmp_laws _ _ cmpNat_laws cmpCharList_laws)

theorem cmpSection_laws : CmpLaws cmpSection :=
  lexCmp_laws cmpVPart cmpVPart_laws

theorem cmpKey_laws : CmpLaws cmpKey :=
  lexCmp_laws cmpSection cmpSection_laws

theorem cmpKey_gt_iff (x y : VersionKey) : cmpKey x y = .gt ↔ cmpKey y x = .lt := by
  have h := cmpKey_laws.swap_eq x y
  constructor
  · intro hx
    rw [hx] at h
    exact h.symm
  · intro hy
    rw [← h] at hy
    cases hxy : cmpKey x y <;> rw [hxy] at hy <;> simp [Ordering.swap] at hy ⊢

theorem keyLT_total (x y : VersionKey) : keyLT x y ∨ x = y ∨ keyLT y x := by
  unfold keyLT
  cases hxy : cmpKey x y with
  | lt => exact Or.inl rfl
  | eq => exact Or.inr (Or.inl ((cmpKey_laws.eq_iff x y).1 hxy))
  | gt => exact Or.inr (Or.inr ((cmpKey_gt_iff x y).1 hxy))

theorem cmpVPart_min (p : VPart) : cmpVPart ([], 0, []) p ≠ .gt := by
  obtain ⟨pre, n, suf⟩ := p
  cases pre with
  | cons c cs => simp [cmpVPart, pairCmp, cmpCharList, lexCmp]
  | nil =>
    cases n with
    | succ m =>
      have h : cmpNat 0 (m + 1) = .lt := Nat.compare_eq_lt.2 (Nat.succ_pos m)
      simp [cmpVPart, pairCmp, cmpCharList, lexCmp, h]
    | zero =>
      have h : cmpNat 0 0 = .eq := Nat.compare_eq_eq.2 rfl
      cases suf with
      | nil => simp [cmpVPart, pairCmp, cmpCharList, lexCmp, h]
      | cons d ds => simp [cmpVPart, pairCmp, cmpCharList, lexCmp, h]

theorem cmpSection_min (p : VPart) (ps : List VPart) :
    cmpSection [([], 0, [])] (p :: ps) ≠ .gt := by
  unfold cmpSection
  simp only [lexCmp]
  cases h : cmpVPart ([], 0, []) p with
  | gt => exact absurd h (cmpVPart_min p)
  | lt => simp
  | eq => cases ps <;> simp [lexCmp]

theorem cmpKey_min_nonempty (p : VPart) (ps : List VPart) (rest : List (List VPart)) :
    cmpKey [[([], 0, [])]] ((p :: ps) :: rest) ≠ .gt := by
  unfold cmpKey
  simp only [lexCmp]
  cases h : cmpSection [([], 0, [])] (p :: ps) with
  | gt => exact absurd h (cmpSection_min p ps)
  | lt => simp
  | eq => cases rest <;> simp [lexCmp]

theorem splitOnChar_ne_nil (c : Char) (l : List Char) : splitOnChar c l ≠ [] := by
  cases l with
  | nil => simp [splitOnChar]
  | cons x xs =>
    simp only [splitOnChar]
    cases hs : splitOnChar c xs with
    | nil => simp
    | cons a t =>
      by_cases hx : x = c <;> simp [hx]

theorem mapSplit_shape (l : List Char) :
    ∃ p ps rest,
      ((splitOnChar '.' l).map fun sec => (splitOnChar '-' sec).map parse_part) =
        (p :: ps) :: rest := by
  obtain ⟨sec0, secs, hs⟩ := List.exists_cons_of_ne_nil (splitOnChar_ne_nil '.' l)
  obtain ⟨q, qs, hq⟩ := List.exists_cons_of_ne_nil (splitOnChar_ne_nil '-' sec0)
  refine ⟨parse_part q, qs.map parse_part,
    secs.map fun sec => (splitOnChar '-' sec).map parse_part, ?_⟩
  simp [hs, hq]

theorem parse_version_shape (s : String) :
    parse_version s = [[([], 0, [])]] ∨
    ∃ p ps rest, parse_version s = (p :: ps) :: rest := by
  unfold parse_version
  by_cases h : pyStripChars s.data = []
  · left
    simp [h]
  · right
    simp only [h, if_false]
    exact mapSplit_shape _

theorem cmpKey_min_parse (t : String) :
    cmpKey [[([], 0, [])]] (parse_version t) ≠ .gt := by
  cases parse_version_shape t with
  | inl h =>
    rw [h]
    rw [(cmpKey_laws.eq_iff _ _).2 rfl]
    simp
  | inr h =>
    obtain ⟨p, ps, rest, hp⟩ := h
    rw [hp]
    exact cmpKey_min_nonempty p ps rest

theorem hexChar_ne_s (n : Nat) : ('s' == hexChar n) = false := by
  by_cases h : n < 16
  · interval_cases n <;> rfl
  · have h0 : hexChar n = 'f' := by
      unfold hexChar
      have hlen : ("0123456789abcdef".data).length = 16 := rfl
      exact List.getD_eq_default _ _ (by omega)
    rw [h0]
    rfl

theorem sha_tag_absent (digestBytes : List Nat) :
    "sha256:".data.isPrefixOf (hexdigest digestBytes).data = false := by
  cases digestBytes with
  | nil => decide
  | cons b bs =>
    have h1 : "sha256:".data = 's' :: "ha256:".data := rfl
    have h2 : (hexdigest (b :: bs)).data =
        hexChar (b / 16 % 16) :: hexChar (b % 16) :: (hexdigest bs).data := rfl
    rw [h1, h2]
    simp [List.isPrefixOf, hexChar_ne_s]

theorem from_about_elem_ok (elem : XElem) (mm : ModMetadata)
    (h : from_about_elem elem = .ok mm) :
    ∃ i ver nm au,
      get_field elem "ModID" = .ok i ∧
      get_field elem "Version" = .ok ver ∧
      get_field elem "Name" = .ok nm ∧
      get_field elem "Author" = .ok au ∧
      mm = read_data elem
        { id := i, version := ver, version_parsed := parse_version ver,
          name := nm, author := au } := by
  unfold from_about_elem at h
  split at h
  next e he => exact absurd h (by simp)
  next i hi =>
    split at h
    next e he => exact absurd h (by simp)
    next ver hver =>
      split at h
      next e he => exact absurd h (by simp)
      next nm hnm =>
        split at h
        next e he => exact absurd h (by simp)
        next au hau =>
          exact ⟨i, ver, nm, au, hi, hver, hnm, hau, (Except.ok.inj h).symm⟩

theorem read_data_branch (elem : XElem) (mm : ModMetadata) :
    (read_data elem mm).branch =
      pyStrip (((findAllChildren elem "Branch").map fun b => b.text.getD "").getLastD "") :=
  rfl

theorem process_asset_fetches (env : Env) (a : Asset)
    (hz : pyEndsWith (pyLower a.name) ".zip" = true)
    (hu : a.browser_download_url ≠ "") :
    (process_asset env a).2 = [a.browser_download_url] := by
  unfold process_asset
  rw [if_neg (by simp [hz]), if_neg hu]
  split
  · rfl
  · split
    · rfl
    · rfl
    · split
      · rfl
      · rfl

theorem process_asset_ok_digest (env : Env) (a : Asset) (mm : ModMetadata)
    (h : (process_asset env a).1 = .ok (some mm)) :
    ∃ ar, env.fetch a.browser_download_url = .ok ar ∧
      mm.digest = hexdigest ar.digestBytes ∧
      mm.url = a.browser_download_url := by
  unfold process_asset at h
  split at h
  · exact absurd h (by simp)
  · split at h
    · exact absurd h (by simp)
    · split at h
      next e hf => exact absurd h (by simp)
      next ar hf =>
        split at h
        next hr => exact absurd h (by simp)
        next hr => exact absurd h (by simp)
        next t hr =>
          split at h
          next e hp => exact absurd h (by simp)
          next mm2 hp =>
            obtain rfl := (Option.some.inj (Except.ok.inj h)).symm
            exact ⟨ar, hf, rfl, rfl⟩

theorem process_assets_mem (env : Env) :
    ∀ (assets : List Asset) (acc l : List ModMetadata),
      (process_assets env assets acc).1 = .ok l →
      ∀ mm ∈ l, mm ∈ acc ∨ ∃ a, (process_asset env a).1 = .ok (some mm) := by
  intro assets
  induction assets with
  | nil =>
    intro acc l h mm hmm
    obtain rfl := Except.ok.inj h
    exact Or.inl hmm
  | cons a rest ih =>
    intro acc l h mm hmm
    unfold process_assets at h
    split at h
    next e f heq => exact absurd h (by simp)
    next f heq => exact ih acc l h mm hmm
    next mm2 f heq =>
      rcases ih (acc ++ [mm2]) l h mm hmm with h2 | h2
      · rcases List.mem_append.1 h2 with h3 | h3
        · exact Or.inl h3
        · have h4 : mm = mm2 := by simpa using h3
          subst h4
          exact Or.inr ⟨a, by rw [heq]⟩
      · exact Or.inr h2

theorem build_entries_t_mem (env : Env) :
    ∀ (rels : List Release) (acc l : List ModMetadata),
      (build_entries_t env rels acc).1 = .ok l →
      ∀ mm ∈ l, mm ∈ acc ∨ ∃ a, (process_asset env a).1 = .ok (some mm) := by
  intro rels
  induction rels with
  | nil =>
    intro acc l h mm hmm
    obtain rfl := Except.ok.inj h
    exact Or.inl hmm
  | cons rel rest ih =>
    intro acc l h mm hmm
    unfold build_entries_t at h
    split at h
    · exact ih acc l h mm hmm
    · split at h
      next e f heq => exact absurd h (by simp)
      next acc2 f heq =>
        rcases ih acc2 l h mm hmm with h2 | h2
        · exact process_assets_mem env rel.assets acc acc2 (congrArg Prod.fst heq) mm h2
        · exact Or.inr h2

theorem insert_sorted_mem (x y : ModMetadata) (l : List ModMetadata) :
    y ∈ insert_sorted x l ↔ y = x ∨ y ∈ l := by
  induction l with
  | nil => simp [insert_sorted]
  | cons z zs ih =>
    unfold insert_sorted
    split
    · simp only [List.mem_cons, ih]
      try tauto
    · simp only [List.mem_cons]
      try tauto

theorem sort_entries_mem (y : ModMetadata) (l : List ModMetadata) :
    y ∈ sort_entries l ↔ y ∈ l := by
  induction l with
  | nil => simp [sort_entries]
  | cons x xs ih =>
    unfold sort_entries at ih ⊢
    simp only [List.foldr_cons, insert_sorted_mem, ih, List.mem_cons]

theorem get_field_none {elem : XElem} {n : String} (h : findtext elem n = none) :
    get_field elem n = .error ("Missing  required <" ++ n ++ "> in About.xml") := by
  unfold get_field
  rw [h]

theorem get_field_some {elem : XElem} {n t : String} (h : findtext elem n = some t) :
    get_field elem n = .ok (pyStrip t) := by
  unfold get_field
  rw [h]

/-- C1: the claim `parse("1.0.0-alpha") < parse("1.0.0-beta") < parse("1.0.0")`
fails on the code: under the parts-3-tuple rule, the last section of
`1.0.0` is a strict prefix of the last section of `1.0.0-beta`, so the
shorter sequence sorts first and `parse("1.0.0-beta") < parse("1.0.0")`
is false. -/
theorem c1_counterexample :
    keyLT (parse_version "1.0.0") (parse_version "1.0.0-beta") ∧
    cmpKey (parse_version "1.0.0-beta") (parse_version "1.0.0") = .gt := by
  decide

/-- C1 (amended): under the documented `(prefix, number, suffix)` tuple
ordering with shorter part sequences preceding longer ones,
`parse("1.0.0")` is strictly less than `parse("1.0.0-alpha")`, which is
strictly less than `parse("1.0.0-beta")`. -/
theorem c1_amended :
    keyLT (parse_version "1.0.0") (parse_version "1.0.0-alpha") ∧
    keyLT (parse_version "1.0.0-alpha") (parse_version "1.0.0-beta") := by
  decide

/-- C4: the version-key ordering is a total order on parsed keys
(trichotomy, with `.eq` characterising equality of keys), and it is
transitive on the images of any three raw version strings. -/
theorem c4_total_transitive :
    (∀ a b c : String,
      keyLT (parse_version a) (parse_version b) →
      keyLT (parse_version b) (parse_version c) →
      keyLT (parse_version a) (parse_version c)) ∧
    (∀ x y : VersionKey, keyLT x y ∨ x = y ∨ keyLT y x) := by
  constructor
  · intro a b c h1 h2
    exact cmpKey_laws.lt_trans _ _ _ h1 h2
  · exact keyLT_total

theorem c4_witness : keyLT (parse_version "1.0") (parse_version "1.2") :=
  c4_total_transitive.1 "1.0" "1.1" "1.2" (by decide) (by decide)

/-- C8: `parse_version` is total by construction; any string that strips
to whitespace-only parses to the minimal key (one section, one part,
`("", 0, "")`), and that key compares less than or equal to every parsed
key. -/
theorem c8_empty_minimal :
    (∀ s : String, pyStripChars s.data = [] → parse_version s = [[([], 0, [])]]) ∧
    (∀ t : String, cmpKey [[([], 0, [])]] (parse_version t) = .lt ∨
      cmpKey [[([], 0, [])]] (parse_version t) = .eq) := by
  constructor
  · intro s h
    unfold parse_version
    simp [h]
  · intro t
    cases h : cmpKey [[([], 0, [])]] (parse_version t) with
    | lt => exact Or.inl rfl
    | eq => exact Or.inr rfl
    | gt => exact absurd h (cmpKey_min_parse t)

theorem c8_witness :
    parse_version "  " = [[([], 0, [])]] ∧
    (cmpKey [[([], 0, [])]] (parse_version "0.1.2-rc1") = .lt ∨
      cmpKey [[([], 0, [])]] (parse_version "0.1.2-rc1") = .eq) :=
  ⟨c8_empty_minimal.1 "  " (by decide), c8_empty_minimal.2 "0.1.2-rc1"⟩

/-- C2: the claim that a failure on one asset is caught and the run
continues fails on the code — the loop has no handler, so a transport
error on the first asset aborts the run with that error, and the valid
second asset (which alone would produce a record) contributes nothing. -/
theorem c2_counterexample :
    build_entries envEx [{ tag_name := "v1", assets := [aBad, aGood] }] = .error "boom" ∧
    (build_entries envEx [{ tag_name := "v1", assets := [aGood] }]).toOption.map
      (fun l => l.map fun mm => mm.id) = some ["mod.good"] :=
  ⟨rfl, rfl⟩

/-- C2 (amended): a failure while handling one asset is not caught at the
asset-processing boundary.  Any error raised while processing an asset
aborts the entire run — the remaining assets of its release and all later
releases are never processed — and each of the three named failure kinds
raises such an error: a transport failure, a malformed descriptor
document, and a missing required field. -/
theorem c2_amended :
    (∀ (env : Env) (tg : String) (a : Asset) (rest : List Asset)
        (rels : List Release) (e : String),
      pyEndsWith (pyLower a.name) ".zip" = true →
      a.browser_download_url ≠ "" →
      (process_asset env a).1 = .error e →
      build_entries env ({ tag_name := tg, assets := a :: rest } :: rels) = .error e) ∧
    (∀ (env : Env) (a : Asset) (e : String),
      pyEndsWith (pyLower a.name) ".zip" = true →
      a.browser_download_url ≠ "" →
      env.fetch a.browser_download_url = .error e →
      (process_asset env a).1 = .error e) ∧
    (∀ (env : Env) (a : Asset) (ar : Archive) (err : String),
      pyEndsWith (pyLower a.name) ".zip" = true →
      a.browser_download_url ≠ "" →
      env.fetch a.browser_download_url = .ok ar →
      read_about_xml_from_zip ar = some (.malformed err) →
      (process_asset env a).1 = .error err) ∧
    (∀ (env : Env) (a : Asset) (ar : Archive) (root : XElem),
      pyEndsWith (pyLower a.name) ".zip" = true →
      a.browser_download_url ≠ "" →
      env.fetch a.browser_download_url = .ok ar →
      read_about_xml_from_zip ar = some (.parsed root) →
      findtext root "ModID" = none →
      (process_asset env a).1 =
        .error ("Missing  required <" ++ "ModID" ++ "> in About.xml")) := by
  refine ⟨?_, ?_, ?_, ?_⟩
  · intro env tg a rest rels e hz hu hpe
    cases hpp : process_asset env a with
    | mk r f =>
      rw [hpp] at hpe
      have hr : r = .error e := hpe
      subst hr
      have hpa : process_assets env (a :: rest) [] = (.error e, f) := by
        unfold process_assets
        rw [hpp]
      have hhz : has_zip { tag_name := tg, assets := a :: rest } = true := by
        unfold has_zip
        simp [hz]
      unfold build_entries build_entries_t
      rw [if_neg (by simp [hhz])]
      rw [hpa]
  · intro env a e hz hu hf
    unfold process_asset
    rw [if_neg (by simp [hz]), if_neg hu, hf]
  · intro env a ar err hz hu hf hr
    unfold process_asset
    rw [if_neg (by simp [hz]), if_neg hu]
    split
    next e2 heq =>
      rw [hf] at heq
      exact absurd heq (by simp)
    next ar2 heq =>
      rw [hf] at heq
      obtain rfl := Except.ok.inj heq
      split
      next heq2 =>
        rw [hr] at heq2
        exact absurd heq2 (by simp)
      next heq2 =>
        rw [hr] at heq2
        exact absurd heq2 (by simp)
      next t heq2 =>
        rw [hr] at heq2
        obtain rfl := Option.some.inj heq2
        rfl
  · intro env a ar root hz hu hf hr hmid
    unfold process_asset
    rw [if_neg (by simp [hz]), if_neg hu]
    split
    next e2 heq =>
      rw [hf] at heq
      exact absurd heq (by simp)
    next ar2 heq =>
      rw [hf] at heq
      obtain rfl := Except.ok.inj heq
      split
      next heq2 =>
        rw [hr] at heq2
        exact absurd heq2 (by simp)
      next heq2 =>
        rw [hr] at heq2
        exact absurd heq2 (by simp)
      next t heq2 =>
        rw [hr] at heq2
        obtain rfl := Option.some.inj heq2
        have hfa : from_about_elem root =
            .error ("Missing  required <" ++ "ModID" ++ "> in About.xml") := by
          unfold from_about_elem
          rw [get_field_none hmid]
        simp only [from_about_xml]
        rw [hfa]

theorem c2_amended_witness :
    build_entries envEx [{ tag_name := "v1", assets := [aBad] }] = .error "boom" ∧
    (process_asset envC2 aMalformed).1 = .error "ParseError: not well-formed" ∧
    (process_asset envC2 aNoField).1 =
      .error ("Missing  required <" ++ "ModID" ++ "> in About.xml") :=
  ⟨c2_amended.1 envEx "v1" aBad [] [] "boom" (by rfl) (by decide)
      (c2_amended.2.1 envEx aBad "boom" (by rfl) (by decide) rfl),
    c2_amended.2.2.1 envC2 aMalformed malformedArchive "ParseError: not well-formed"
      (by rfl) (by decide) rfl rfl,
    c2_amended.2.2.2 envC2 aNoField noFieldArchive emptyDoc
      (by rfl) (by decide) rfl rfl rfl⟩

/-- C3: the claim that a pre-populated cache entry for a digest makes the
builder skip archive retrieval fails on the code — there is no artifact
cache; even when the previously persisted catalog already holds a record
whose digest is exactly the digest of the asset's archive, the run still
downloads the asset. -/
theorem c3_counterexample :
    goodRecord.digest = hexdigest goodArchive.digestBytes ∧
    main_fetches [goodRecord] envEx [{ tag_name := "v1", assets := [aGood] }] =
      ["https://x/good.zip"] :=
  ⟨rfl, rfl⟩

/-- C3 (amended): the builder keeps no artifact cache: the set of URLs it
downloads is independent of whatever was previously persisted, and every
zip-named asset with a nonempty URL that the loop reaches is fetched. -/
theorem c3_amended :
    (∀ old1 old2 env rels, main_fetches old1 env rels = main_fetches old2 env rels) ∧
    (∀ (env : Env) (a : Asset) (rest : List Asset),
      pyEndsWith (pyLower a.name) ".zip" = true →
      a.browser_download_url ≠ "" →
      a.browser_download_url ∈ (process_assets env (a :: rest) []).2) := by
  constructor
  · intro _ _ _ _
    rfl
  · intro env a rest hz hu
    have h2 := process_asset_fetches env a hz hu
    unfold process_assets
    cases hpe : process_asset env a with
    | mk r f =>
      rw [hpe] at h2
      simp at h2
      cases r with
      | error e => simp [h2]
      | ok o =>
        cases o with
        | none => simp [h2]
        | some mm => simp [h2]

theorem c3_amended_witness :
    "https://x/good.zip" ∈ (process_assets envEx [aGood] []).2 :=
  c3_amended.2 envEx aGood [] (by rfl) (by decide)

/-- C6: the claim that every emitted digest carries an algorithm tag such
as `sha256:` fails on the code — the recorded digest is the bare
hexdigest: on a concrete run the produced record's digest is `aa00`,
which does not start with `sha256:`. -/
theorem c6_counterexample :
    (build_entries envEx [{ tag_name := "v1", assets := [aGood] }]).toOption.map
      (fun l => l.map fun mm => mm.digest) = some ["aa00"] ∧
    "sha256:".data.isPrefixOf "aa00".data = false :=
  ⟨rfl, rfl⟩

/-- C6 (amended): every record in the emitted catalog carries as `Digest`
the bare lowercase hexdigest of the SHA-256 of the archive bytes fetched
from its URL — with no algorithm tag: no digest starts with `sha256:`. -/
theorem c6_amended :
    ∀ (env : Env) (rels : List Release) (l : List ModMetadata),
      build_entries env rels = .ok l →
      ∀ e ∈ (modrepoElem l).children,
        ∃ mm ∈ l, getAttr e "Digest" = some mm.digest ∧
          (∃ ar, env.fetch mm.url = .ok ar ∧ mm.digest = hexdigest ar.digestBytes) ∧
          "sha256:".data.isPrefixOf mm.digest.data = false := by
  intro env rels l h e he
  have he2 : e ∈ (sort_entries l).map modVersionElem := he
  obtain ⟨mm, hmm, rfl⟩ := List.mem_map.1 he2
  have hl : mm ∈ l := (sort_entries_mem mm l).1 hmm
  rcases build_entries_t_mem env rels [] l h mm hl with h2 | ⟨a, h2⟩
  · simp at h2
  · obtain ⟨ar, hf, hd, hu⟩ := process_asset_ok_digest env a mm h2
    refine ⟨mm, hl, rfl, ⟨ar, ?_, hd⟩, ?_⟩
    · rw [hu]
      exact hf
    · rw [hd]
      exact sha_tag_absent ar.digestBytes

theorem c6_amended_witness :
    ∃ mm ∈ [goodRecord], getAttr (modVersionElem goodRecord) "Digest" = some mm.digest ∧
      (∃ ar, envEx.fetch mm.url = .ok ar ∧ mm.digest = hexdigest ar.digestBytes) ∧
      "sha256:".data.isPrefixOf mm.digest.data = false :=
  c6_amended envEx [{ tag_name := "v1", assets := [aGood] }] [goodRecord] rfl
    (modVersionElem goodRecord) (List.mem_singleton.2 rfl)

/-- C5: the claim that all `Branch` values are kept and one `Branch`
child is emitted per distinct label fails on the code — a descriptor
declaring branches `a ` and `b ` parses to a record whose branch is just
`b`, and its `ModVersion` element carries a single `Branch` child with
`Value` `b`. -/
theorem c5_counterexample :
    (from_about_elem exTwoBranchDoc).toOption.map
      (fun mm => (mm.branch,
        (modVersionElem mm).children.map fun c => (c.tag, getAttr c "Value"))) =
      some ("b", [("Branch", some "b")]) :=
  rfl

/-- C5 (amended): the parser keeps only the trimmed text of the *last*
declared `Branch` element (empty when none), and every emitted
`ModVersion` carries exactly one `Branch` child whose `Value` is that
single branch. -/
theorem c5_amended (elem : XElem) (mm : ModMetadata)
    (h : from_about_elem elem = .ok mm) :
    mm.branch =
      pyStrip (((findAllChildren elem "Branch").map fun b => b.text.getD "").getLastD "") ∧
    ((modVersionElem mm).children.map fun c => (c.tag, getAttr c "Value")) =
      [("Branch", some (pyOrS mm.branch ""))] := by
  obtain ⟨i, ver, nm, au, _, _, _, _, rfl⟩ := from_about_elem_ok elem mm h
  exact ⟨read_data_branch elem _, rfl⟩

theorem c5_amended_witness :
    twoBranchRecord.branch =
      pyStrip (((findAllChildren exTwoBranchDoc "Branch").map fun b => b.text.getD "").getLastD "") ∧
    ((modVersionElem twoBranchRecord).children.map fun c => (c.tag, getAttr c "Value")) =
      [("Branch", some (pyOrS twoBranchRecord.branch ""))] :=
  c5_amended exTwoBranchDoc twoBranchRecord rfl

/-- C7: the spec is right and the code is wrong — the code looks up the
`Tags` container and checks it is non-empty, but then collects `Tag`
leaves from the *root* element (`elem.findall("Tag")`, line 78) instead
of from the container, so a descriptor whose `Tags` container holds
`<Tag>Gameplay</Tag>` yields no tags at all. -/
theorem c7_code_eval :
    ((findChild exTagsDoc "Tags").map fun te =>
        (findAllChildren te "Tag").map fun t => pyStrip (t.text.getD "")) =
      some ["Gameplay"] ∧
    (from_about_elem exTagsDoc).toOption.map (fun mm => mm.tag) = some [] :=
  ⟨rfl, rfl⟩

/-- C9: the claim that a record is never constructed with a blank
required field fails on the code — `findtext` maps a present-but-empty
`<ModID></ModID>` to `""`, which passes `get_field`, so parsing succeeds
and yields a record whose `id` is empty. -/
theorem c9_counterexample :
    (from_about_elem exBlankModIDDoc).toOption.map (fun mm => mm.id) = some "" :=
  rfl

/-- C9 (amended): parsing fails, with an error naming the missing tag,
exactly when one of the `ModID`, `Version`, `Name`, `Author` elements is
absent from the document; an element that is present but has empty or
blank text passes, yielding a record with that field empty. -/
theorem c9_amended (elem : XElem) :
    ((∃ mm, from_about_elem elem = .ok mm) ↔
      (findtext elem "ModID" ≠ none ∧ findtext elem "Version" ≠ none ∧
        findtext elem "Name" ≠ none ∧ findtext elem "Author" ≠ none)) ∧
    (∀ e, from_about_elem elem = .error e →
      ∃ t ∈ (["ModID", "Version", "Name", "Author"] : List String),
        findtext elem t = none ∧
        e = "Missing  required <" ++ t ++ "> in About.xml") := by
  cases h1 : findtext elem "ModID" with
  | none =>
    have hf : from_about_elem elem =
        .error ("Missing  required <" ++ "ModID" ++ "> in About.xml") := by
      unfold from_about_elem
      rw [get_field_none h1]
    refine ⟨⟨fun ⟨mm, hmm⟩ => absurd (hf ▸ hmm) (by simp), fun ⟨ha, _⟩ => absurd rfl ha⟩, ?_⟩
    intro e he
    rw [hf] at he
    exact ⟨"ModID", by simp, h1, (Except.error.inj he).symm⟩
  | some t1 =>
    cases h2 : findtext elem "Version" with
    | none =>
      have hf : from_about_elem elem =
          .error ("Missing  required <" ++ "Version" ++ "> in About.xml") := by
        unfold from_about_elem
        rw [get_field_some h1, get_field_none h2]
      refine ⟨⟨fun ⟨mm, hmm⟩ => absurd (hf ▸ hmm) (by simp),
        fun ⟨_, ha, _⟩ => absurd rfl ha⟩, ?_⟩
      intro e he
      rw [hf] at he
      exact ⟨"Version", by simp, h2, (Except.error.inj he).symm⟩
    | some t2 =>
      cases h3 : findtext elem "Name" with
      | none =>
        have hf : from_about_elem elem =
            .error ("Missing  required <" ++ "Name" ++ "> in About.xml") := by
          unfold from_about_elem
          rw [get_field_some h1, get_field_some h2, get_field_none h3]
        refine ⟨⟨fun ⟨mm, hmm⟩ => absurd (hf ▸ hmm) (by simp),
          fun ⟨_, _, ha, _⟩ => absurd rfl ha⟩, ?_⟩
        intro e he
        rw [hf] at he
        exact ⟨"Name", by simp, h3, (Except.error.inj he).symm⟩
      | some t3 =>
        cases h4 : findtext elem "Author" with
        | none =>
          have hf : from_about_elem elem =
              .error ("Missing  required <" ++ "Author" ++ "> in About.xml") := by
            unfold from_about_elem
            rw [get_field_some h1, get_field_some h2, get_field_some h3, get_field_none h4]
          refine ⟨⟨fun ⟨mm, hmm⟩ => absurd (hf ▸ hmm) (by simp),
            fun ⟨_, _, _, ha⟩ => absurd rfl ha⟩, ?_⟩
          intro e he
          rw [hf] at he
          exact ⟨"Author", by simp, h4, (Except.error.inj he).symm⟩
        | some t4 =>
          have hf : from_about_elem elem = .ok (read_data elem
              { id := pyStrip t1, version := pyStrip t2,
                version_parsed := parse_version (pyStrip t2),
                name := pyStrip t3, author := pyStrip t4 }) := by
            unfold from_about_elem
            rw [get_field_some h1, get_field_some h2, get_field_some h3, get_field_some h4]
          constructor
          · exact ⟨fun _ => ⟨by simp [h1], by simp [h2], by simp [h3], by simp [h4]⟩,
              fun _ => ⟨_, hf⟩⟩
          · intro e he
            rw [hf] at he
            exact absurd he (by simp)

theorem c9_witness : ∃ mm, from_about_elem exGoodDoc = .ok mm :=
  (c9_amended exGoodDoc).1.mpr ⟨by decide, by decide, by decide, by decide⟩

/-- C10: every `ModVersion` element in the emitted catalog contains
exactly one `Branch` child, and its `Value` attribute is the empty string
whenever the source descriptor declared no `Branch` element. -/
theorem c10_single_branch :
    (∀ mm : ModMetadata,
      ((modVersionElem mm).children.map fun c => (c.tag, getAttr c "Value")) =
        [("Branch", some (pyOrS mm.branch ""))]) ∧
    (∀ (elem : XElem) (mm : ModMetadata), from_about_elem elem = .ok mm →
      findAllChildren elem "Branch" = [] →
      ((modVersionElem mm).children.map fun c => (c.tag, getAttr c "Value")) =
        [("Branch", some "")]) := by
  constructor
  · intro mm
    rfl
  · intro elem mm h hb
    have hbr : mm.branch = "" := by
      obtain ⟨i, ver, nm, au, _, _, _, _, rfl⟩ := from_about_elem_ok elem mm h
      rw [read_data_branch, hb]
      rfl
    have h1 : ((modVersionElem mm).children.map fun c => (c.tag, getAttr c "Value")) =
        [("Branch", some (pyOrS mm.branch ""))] := rfl
    rw [h1, hbr]
    rfl

theorem c10_witness :
    ((modVersionElem goodBaseRecord).children.map fun c => (c.tag, getAttr c "Value")) =
      [("Branch", some "")] :=
  c10_single_branch.2 exGoodDoc goodBaseRecord rfl rfl
